import Mathlib

/-!
Verification of the Portable-PDB reader of this repository.

The embedding covers:
* `portablepdbfile.cc` — `GetDocumentName`, `GetHeapGuid`, and the
  metadata-table row-count check of `ParseCompressedMetadataTableStream`;
* `documentindex.cc` — `DocumentIndex::Initialize`, `ParseMethod`,
  `ParseScope`.

The bounded binary reader (`custombinaryreader.cc`) is not part of the
sources; it is modelled from the specification, section 4.1 (see the
doc comments of the individual operations).  Machine integers are
modelled as `Nat` with explicit reduction modulo `2 ^ 32` wherever the
C++ performs `uint32_t` arithmetic that can wrap.  Strings are modelled
at the byte level as `List Nat` where the C++ manipulates `std::string`
as raw bytes.  Boolean-returning C++ functions that also produce output
through pointers are embedded as functions returning `Option` results
paired with the final reader state.
-/

/-- Modulus of `uint32_t` arithmetic. -/
def u32Mod : Nat := 4294967296

/-- Modelled from the spec: the bounded binary reader of
`custombinaryreader.cc` (absent from the sources).  Per section 4.1 the
reader offers sequential/random byte access over an in-memory buffer
with a virtual end-of-stream boundary.  `len` is the byte length of the
underlying buffer, `byteAt` its contents, `pos` the cursor and `endPos`
the active virtual end (`endPos = len` when no boundary is active). -/
structure CustomBinaryStream where
  len : Nat
  byteAt : Nat → Nat
  pos : Nat
  endPos : Nat

/-- Modelled from the spec: `HasNext()` is true while the current
position is below the active (possibly bounded) length (section 4.1). -/
def CustomBinaryStream.hasNext (s : CustomBinaryStream) : Bool :=
  s.pos < s.endPos

/-- Modelled from the spec: `ReadByte` consumes one byte, failing at the
active boundary (section 4.1).  Byte values are reduced modulo 256. -/
def CustomBinaryStream.readByte (s : CustomBinaryStream) :
    Option (Nat × CustomBinaryStream) :=
  if s.pos < s.endPos then
    some (s.byteAt s.pos % 256, { s with pos := s.pos + 1 })
  else
    none

/-- Modelled from the spec: `ReadBytes(n)` reads exactly `n` bytes or
fails (section 4.1). -/
def CustomBinaryStream.readBytes (n : Nat) (s : CustomBinaryStream) :
    Option (List Nat × CustomBinaryStream) :=
  if s.pos + n ≤ s.endPos then
    some ((List.range n).map (fun i => s.byteAt (s.pos + i) % 256),
      { s with pos := s.pos + n })
  else
    none

/-- Modelled from the spec: the variable-width unsigned integer scheme
of section 4.1 — one byte if the top bit of the first byte is 0; two
bytes if the top two bits are `10`, tag bits masked off; otherwise four
bytes with the top bit of the first byte masked off. -/
def CustomBinaryStream.readCompressedUInt32 (s : CustomBinaryStream) :
    Option (Nat × CustomBinaryStream) :=
  match s.readByte with
  | none => none
  | some (b, s1) =>
    if b < 128 then
      some (b, s1)
    else if b < 192 then
      match s1.readByte with
      | none => none
      | some (b2, s2) => some ((b % 64) * 256 + b2, s2)
    else
      match s1.readByte with
      | none => none
      | some (b2, s2) =>
        match s2.readByte with
        | none => none
        | some (b3, s3) =>
          match s3.readByte with
          | none => none
          | some (b4, s4) =>
            some ((b % 128) * 16777216 + b2 * 65536 + b3 * 256 + b4, s4)

/-- Modelled from the spec: `SeekFromOrigin(pos)` repositions the
cursor absolutely (section 4.1).  The target is checked against the
underlying buffer, not the active boundary: the document-name decoder
of section 4.4 must be able to seek from the bounded part-index area
into the blob heap to fetch a component, so a boundary-checked seek
would make that decoder unusable. -/
def CustomBinaryStream.seekFromOrigin (p : Nat) (s : CustomBinaryStream) :
    Option CustomBinaryStream :=
  if p ≤ s.len then some { s with pos := p } else none

/-- Modelled from the spec: `SetStreamLength(n)` establishes a virtual
end-of-stream boundary `n` bytes past the current position, so a
sub-parser cannot read past a nested blob's declared length
(section 4.1).  It fails when the boundary would exceed the underlying
buffer. -/
def CustomBinaryStream.setStreamLength (n : Nat) (s : CustomBinaryStream) :
    Option CustomBinaryStream :=
  if s.pos + n ≤ s.len then some { s with endPos := s.pos + n } else none

/-- Modelled from the spec: `ResetStreamLength()` removes the virtual
boundary, restoring the underlying buffer end (section 4.1). -/
def CustomBinaryStream.resetStreamLength (s : CustomBinaryStream) :
    CustomBinaryStream :=
  { s with endPos := s.len }

/-- Modelled from the spec: `Current()` is the saved index-list cursor
position used by the document-name decoder (section 4.4). -/
def CustomBinaryStream.current (s : CustomBinaryStream) : Nat :=
  s.pos

/-- One iteration state of the part-index loop of
`PortablePdbFile::GetDocumentName` (`portablepdbfile.cc`, lines
140-182).  `heapOff` is `blob_heap_header_.offset`, `idxLen` the blob's
declared length `index_stream_length`, `sep` the separator byte and
`acc` the accumulated `result` bytes.  A `none` result is a C++
`return false`; the reader state is returned in either case, with
`ResetStreamLength` applied exactly where the source applies it — in
particular the two exits after a component has been appended (source
lines 175-178) do not reset the boundary.  `fuel` only bounds the
recursion; the wrapper passes `len + 1`, which the strictly advancing
cursor never exhausts. -/
def getDocumentNameLoop (fuel : Nat) (heapOff idxLen sep : Nat)
    (acc : List Nat) (s : CustomBinaryStream) :
    Option (List Nat) × CustomBinaryStream :=
  match fuel with
  | 0 => (none, s)
  | fuel + 1 =>
    if s.hasNext then
      match s.readCompressedUInt32 with
      | none => (none, s.resetStreamLength)
      | some (partIndex, s1) =>
        let indexStreamPos := s1.current
        if partIndex ≠ 0 then
          match s1.seekFromOrigin ((heapOff + partIndex) % u32Mod) with
          | none => (none, s1.resetStreamLength)
          | some s2 =>
            match s2.readCompressedUInt32 with
            | none => (none, s2.resetStreamLength)
            | some (componentLen, s3) =>
              match s3.readBytes componentLen with
              | none => (none, s3.resetStreamLength)
              | some (component, s4) =>
                match s4.seekFromOrigin indexStreamPos with
                | none => (none, s4)
                | some s5 =>
                  match s5.setStreamLength idxLen with
                  | none => (none, s5)
                  | some s6 =>
                    getDocumentNameLoop fuel heapOff idxLen sep
                      (acc ++ component ++ [sep]) s6
        else
          getDocumentNameLoop fuel heapOff idxLen sep (acc ++ [sep]) s1
    else
      (some acc, s)

/-- `PortablePdbFile::GetDocumentName` (`portablepdbfile.cc`, lines
113-189) up to and including the part-index loop: a `some` result is
the accumulated byte string immediately before the
`result.pop_back()` of line 184.  The unchecked `SeekFromOrigin` of
line 118 is mirrored by continuing with the unchanged reader when the
seek fails.  Offset additions are `uint32_t` in the source and are
reduced modulo `2 ^ 32`. -/
def getDocumentNameCore (heapOff index : Nat) (s0 : CustomBinaryStream) :
    Option (List Nat) × CustomBinaryStream :=
  if index = 0 then (none, s0)
  else
    let s1 := (s0.seekFromOrigin ((heapOff + index) % u32Mod)).getD s0
    match s1.readCompressedUInt32 with
    | none => (none, s1)
    | some (idxLen, s2) =>
      match s2.setStreamLength idxLen with
      | none => (none, s2)
      | some s3 =>
        match s3.readByte with
        | none => (none, s3.resetStreamLength)
        | some (sep, s4) =>
          getDocumentNameLoop (s4.len + 1) heapOff idxLen sep [] s4

/-- `PortablePdbFile::GetDocumentName` (`portablepdbfile.cc`, lines
113-189).  On loop completion the source pops the last byte of
`result` (line 184; undefined behaviour in C++ when `result` is empty,
modelled as `List.dropLast`) and resets the boundary. -/
def getDocumentName (heapOff index : Nat) (s0 : CustomBinaryStream) :
    Option (List Nat) × CustomBinaryStream :=
  match getDocumentNameCore heapOff index s0 with
  | (some bytes, s) => (some bytes.dropLast, s.resetStreamLength)
  | (none, s) => (none, s)

/-- `PortablePdbFile::GetHeapGuid` (`portablepdbfile.cc`, lines
191-212).  `offset = (index - 1) * 16` is `uint32_t` arithmetic, so
`index = 0` wraps to `2 ^ 32 - 16`; the addition of the heap offset is
also a `uint32_t` addition. -/
def getHeapGuid (guidOff index : Nat) (s : CustomBinaryStream) :
    Option (List Nat) × CustomBinaryStream :=
  let offset := ((index + (u32Mod - 1)) * 16) % u32Mod
  match s.seekFromOrigin ((guidOff + offset) % u32Mod) with
  | none => (none, s)
  | some s1 =>
    match s1.readBytes 16 with
    | none => (none, s1)
    | some (bytes, s2) => (some bytes, s2)

/-- Table-kind number of the `Document` metadata table (ECMA-335
Portable-PDB numbering, per section 6 of the spec). -/
def documentTableKind : Nat := 48

/-- The five PDB-specific table kinds: `Document`,
`MethodDebugInformation`, `LocalScope`, `LocalVariable`,
`LocalConstant`. -/
def pdbTableKinds : List Nat := [48, 49, 50, 51, 52]

/-- The row-count derivation loop of
`PortablePdbFile::ParseCompressedMetadataTableStream`
(`portablepdbfile.cc`, lines 309-320): for each table kind, its row
count is the next entry of `num_rows` when the kind's `valid_mask` bit
is set, and 0 otherwise. -/
def buildRowsPerTable : List Bool → List Nat → List Nat
  | [], _ => []
  | b :: bs, numRows =>
    if b then
      numRows.headD 0 :: buildRowsPerTable bs numRows.tail
    else
      0 :: buildRowsPerTable bs numRows

/-- The PDB-only table validation of
`PortablePdbFile::ParseCompressedMetadataTableStream`
(`portablepdbfile.cc`, lines 322-328): the source iterates
`i` from 0 up to `rows_per_table[MetadataTable::Document]` — the row
count of the `Document` table — and fails on any nonzero entry.
(An index beyond the C++ array would be undefined behaviour there; the
model reads 0.) -/
def pdbOnlyTablesCheck (rowsPerTable : List Nat) : Bool :=
  (List.range (rowsPerTable.getD documentTableKind 0)).all
    (fun i => rowsPerTable.getD i 0 == 0)

/-- Byte buffer shared by the `GetDocumentName` examples: a blob heap
at offset 0 holding the reserved byte, three component blobs
`"a"`, `"b"`, `"c"` at indices 1, 3, 5, and at index 7 the
document-name blob `[length 4, '/', 1, 3, 5]`. -/
def docNameBytes : List Nat :=
  [0, 1, 97, 1, 98, 1, 99, 4, 47, 1, 3, 5]

/-- The document-name example buffer padded with zero bytes to length
20 (the name blob is followed by further heap data). -/
def streamPadded : CustomBinaryStream :=
  { len := 20, byteAt := fun i => docNameBytes.getD i 0, pos := 0, endPos := 20 }

/-- The document-name example buffer cut at length 13 (the name blob
is flush with the end of the buffer except for one byte). -/
def streamTight : CustomBinaryStream :=
  { len := 13, byteAt := fun i => docNameBytes.getD i 0, pos := 0, endPos := 13 }

/-- A document-name blob with an empty part-index list: declared
length 1, holding only the separator byte. -/
def streamEmptyParts : CustomBinaryStream :=
  { len := 9, byteAt := fun i => [0, 0, 0, 0, 0, 0, 0, 1, 47].getD i 0,
    pos := 0, endPos := 9 }

/-- A 48-byte buffer whose GUID heap starts at offset 16; byte `i` has
value `i`. -/
def streamGuid : CustomBinaryStream :=
  { len := 48, byteAt := fun i => i % 256, pos := 0, endPos := 48 }

/-- `DocumentRow` (data model, section 3): blob/guid heap indices of a
`Document` table row. -/
structure DocumentRow where
  name : Nat
  hash_algorithm : Nat
  hash : Nat
  language : Nat

instance : Inhabited DocumentRow :=
  ⟨{ name := 0, hash_algorithm := 0, hash := 0, language := 0 }⟩

/-- `MethodDebugInformationRow` (data model, section 3). -/
structure MethodDebugInformationRow where
  document : Nat
  sequence_points : Nat

instance : Inhabited MethodDebugInformationRow :=
  ⟨{ document := 0, sequence_points := 0 }⟩

/-- `LocalScopeRow` (data model, section 3). -/
structure LocalScopeRow where
  method_def : Nat
  variable_list : Nat
  constant_list : Nat
  start_offset : Nat
  length : Nat

instance : Inhabited LocalScopeRow :=
  ⟨{ method_def := 0, variable_list := 0, constant_list := 0,
     start_offset := 0, length := 0 }⟩

/-- `LocalVariableRow` (data model, section 3). -/
structure LocalVariableRow where
  attributes : Nat
  index : Nat
  name : Nat

instance : Inhabited LocalVariableRow :=
  ⟨{ attributes := 0, index := 0, name := 0 }⟩

/-- `LocalConstantRow` (data model, section 3). -/
structure LocalConstantRow where
  name : Nat
  signature : Nat

instance : Inhabited LocalConstantRow :=
  ⟨{ name := 0, signature := 0 }⟩

/-- Modelled from the spec: a decoded sequence-point record
(`metadatatables.h` is absent from the sources).  All fields are
`uint32_t` values; `document` is the document reference of a
document-change record and 0 otherwise (section 4.5). -/
structure SequencePointRecord where
  il_delta : Nat
  start_line : Nat
  end_line : Nat
  start_col : Nat
  end_col : Nat
  document : Nat

instance : Inhabited SequencePointRecord :=
  ⟨{ il_delta := 0, start_line := 0, end_line := 0, start_col := 0,
     end_col := 0, document := 0 }⟩

/-- Modelled from the spec: a record with the distinguished zero-width
line/column encoding denotes "hidden" (section 4.5). -/
def IsHidden (r : SequencePointRecord) : Bool :=
  r.start_line == r.end_line && r.start_col == r.end_col

/-- Modelled from the spec: a record beginning with a compressed-uint32
`0` immediately followed by a document reference denotes a
document-change marker (section 4.5). -/
def IsDocumentChange (r : SequencePointRecord) : Bool :=
  r.il_delta == 0 && r.document != 0

/-- Modelled from the spec: the decoded sequence-point blob of one
method; the header fields are consumed by the parser, leaving the
record list (section 4.5). -/
structure MethodSequencePointInformation where
  records : List SequencePointRecord

/-- `SequencePoint` (data model, section 3): `il_offset` is absolute. -/
structure SequencePoint where
  start_line : Nat
  end_line : Nat
  start_col : Nat
  end_col : Nat
  il_offset : Nat
  is_hidden : Bool

instance : Inhabited SequencePoint :=
  ⟨{ start_line := 0, end_line := 0, start_col := 0, end_col := 0,
     il_offset := 0, is_hidden := false }⟩

/-- `LocalVariableInfo` (`documentindex.h`). -/
structure LocalVariableInfo where
  slot : Nat
  name : String
  debugger_hidden : Bool

/-- `LocalConstantInfo` (`documentindex.h`). -/
structure LocalConstantInfo where
  name : String

/-- `Scope` (`documentindex.h`): row ranges plus decoded locals. -/
structure Scope where
  index : Nat
  start_offset : Nat
  length : Nat
  local_var_row_start_index : Nat
  local_var_row_end_index : Nat
  local_const_row_start_index : Nat
  local_const_row_end_index : Nat
  local_variables : List LocalVariableInfo
  local_constants : List LocalConstantInfo

instance : Inhabited Scope :=
  ⟨{ index := 0, start_offset := 0, length := 0,
     local_var_row_start_index := 0, local_var_row_end_index := 0,
     local_const_row_start_index := 0, local_const_row_end_index := 0,
     local_variables := [], local_constants := [] }⟩

/-- `MethodInfo` (`documentindex.h`). -/
structure MethodInfo where
  method_def : Nat
  first_line : Nat
  last_line : Nat
  sequence_points : List SequencePoint
  local_scope : List Scope

/-- `DocumentIndex` contents (`documentindex.h`). -/
structure DocumentIndexData where
  file_path : String
  source_language : String
  hash_algorithm : String
  hash : List Nat
  methods : List MethodInfo

/-- The `IPortablePdbFile` view consumed by `documentindex.cc`: the
decoded tables plus the heap accessors.  `parseSeqPointInfo doc blob`
models the combination of `GetHeapBlobStream` on a
`MethodDebugInformationRow`'s `sequence_points` index followed by
`ParseFrom` (`documentindex.cc`, lines 109-120; the blob parser itself
is not in the sources and is left as the decoded outcome). -/
structure PdbView where
  documentTable : List DocumentRow
  methodDebugInfoTable : List MethodDebugInformationRow
  localScopeTable : List LocalScopeRow
  localVariableTable : List LocalVariableRow
  localConstantTable : List LocalConstantRow
  getDocumentName : Nat → Option String
  getHeapGuid : Nat → String
  getHeapBlobStream : Nat → Option (List Nat)
  getHeapString : Nat → String
  parseSeqPointInfo : Nat → Nat → Option MethodSequencePointInformation

/-- `kDebuggerHidden` local-variable attribute flag (its value lives in
the headers absent from the sources; the claims do not depend on it). -/
def kDebuggerHidden : Nat := 1

/-- Modelled from the spec: fixed table mapping well-known 16-byte GUID
values to language names (section 4.5).  The concrete GUID values live
outside the sources and no claim depends on them. -/
def languageNameTable : List (String × String) := []

/-- Modelled from the spec: language-name lookup over the fixed GUID
table (section 4.5). -/
def GetLanguageName (guid : String) : String :=
  ((languageNameTable.filter (fun p => p.fst == guid)).headD ("", "")).snd

/-- Modelled from the spec: fixed table mapping well-known 16-byte GUID
values to hash-algorithm names (section 4.5). -/
def hashAlgorithmNameTable : List (String × String) := []

/-- Modelled from the spec: hash-algorithm-name lookup over the fixed
GUID table (section 4.5). -/
def GetHashAlgorithmName (guid : String) : String :=
  ((hashAlgorithmNameTable.filter (fun p => p.fst == guid)).headD ("", "")).snd

/-- `DocumentIndex::ParseScope` (`documentindex.cc`, lines 176-248).
The C++ fills the `Scope` out-parameter progressively and returns
`false` at the guard or at either range check; the embedding returns
the success flag together with the `Scope` as written up to that
point, because `ParseMethod` keeps the partially filled scope even on
failure. -/
def DocumentIndex.ParseScope (pdb : PdbView) (row : LocalScopeRow)
    (scopeTable : List LocalScopeRow) (varTable : List LocalVariableRow)
    (constTable : List LocalConstantRow) (method_def scope_index : Nat) :
    Bool × Scope :=
  let _ := method_def
  if scopeTable.length ≤ scope_index then
    (false, default)
  else
    -- The source initialises both end indices to the table sizes and,
    -- inside a single `if` on the existence of row `scope_index + 1`,
    -- lowers both to the next row's list heads; the two equal
    -- conditionals below render exactly that.
    let varEnd :=
      if scope_index + 1 < scopeTable.length then
        min varTable.length
          ((scopeTable.getD (scope_index + 1) default).variable_list)
      else varTable.length
    let constEnd :=
      if scope_index + 1 < scopeTable.length then
        min constTable.length
          ((scopeTable.getD (scope_index + 1) default).constant_list)
      else constTable.length
    let s1 : Scope :=
      { index := scope_index,
        start_offset := row.start_offset,
        length := row.length,
        local_var_row_start_index := row.variable_list,
        local_var_row_end_index := varEnd,
        local_const_row_start_index := row.constant_list,
        local_const_row_end_index := constEnd,
        local_variables := [], local_constants := [] }
    if varEnd < row.variable_list ∨ varTable.length < varEnd then
      (false, s1)
    else
      let vars :=
        ((List.range (varEnd - row.variable_list)).map
          (fun k =>
            let vrow := varTable.getD (row.variable_list + k) default
            { slot := vrow.index,
              name := pdb.getHeapString vrow.name,
              debugger_hidden := vrow.attributes == kDebuggerHidden :
              LocalVariableInfo }))
      let s2 := { s1 with local_variables := vars }
      if constEnd < row.constant_list ∨ constTable.length < constEnd then
        (false, s2)
      else
        let consts :=
          ((List.range (constEnd - row.constant_list)).map
            (fun k =>
              let crow := constTable.getD (row.constant_list + k) default
              { name := pdb.getHeapString crow.name : LocalConstantInfo }))
        (true, { s2 with local_constants := consts })

/-- The sequence-point loop of `DocumentIndex::ParseMethod`
(`documentindex.cc`, lines 122-149): accumulates the `uint32_t` IL
offset, tracks `first_line`/`last_line` over points that are not
hidden, and fails on a document-change record.  Returns the emitted
points in order together with the final `first_line`/`last_line`. -/
def seqPointLoop : List SequencePointRecord → Nat → Nat → Nat →
    List SequencePoint → Option (List SequencePoint × Nat × Nat)
  | [], _, first, last, acc => some (acc.reverse, first, last)
  | r :: rest, il, first, last, acc =>
    if IsDocumentChange r then
      none
    else
      let il' := (il + r.il_delta) % u32Mod
      let hidden := IsHidden r || IsDocumentChange r
      let sp : SequencePoint :=
        { start_line := r.start_line, end_line := r.end_line,
          start_col := r.start_col, end_col := r.end_col,
          il_offset := il', is_hidden := hidden }
      let first' := if hidden then first else min r.start_line first
      let last' := if hidden then last else max r.end_line last
      seqPointLoop rest il' first' last' (sp :: acc)

/-- The local-scope loop of `DocumentIndex::ParseMethod`
(`documentindex.cc`, lines 151-171): scans the `LocalScope` table from
position 1 for rows owned by `method_def`.  A `ParseScope` failure is
only logged there — the partially parsed scope is pushed regardless
and the loop continues. -/
def scopeLoop (pdb : PdbView) (method_def : Nat) :
    Nat → List LocalScopeRow → List Scope
  | _, [] => []
  | idx, row :: rest =>
    if row.method_def ≠ method_def then
      scopeLoop pdb method_def (idx + 1) rest
    else
      (DocumentIndex.ParseScope pdb row pdb.localScopeTable
        pdb.localVariableTable pdb.localConstantTable method_def idx).snd ::
        scopeLoop pdb method_def (idx + 1) rest

/-- `DocumentIndex::ParseMethod` (`documentindex.cc`, lines 100-174):
initialises the sentinels `first_line = UINT32_MAX`, `last_line = 0`,
decodes the sequence-point blob, runs the sequence-point loop and the
local-scope loop. -/
def DocumentIndex.ParseMethod (pdb : PdbView)
    (debug_info_row : MethodDebugInformationRow)
    (method_def doc_index : Nat) : Option MethodInfo :=
  match pdb.parseSeqPointInfo doc_index debug_info_row.sequence_points with
  | none => none
  | some info =>
    match seqPointLoop info.records 0 (u32Mod - 1) 0 [] with
    | none => none
    | some (points, first, last) =>
      some
        { method_def := method_def, first_line := first, last_line := last,
          sequence_points := points,
          local_scope :=
            scopeLoop pdb method_def 1 (pdb.localScopeTable.drop 1) }

/-- The method loop of `DocumentIndex::Initialize` (`documentindex.cc`,
lines 78-95): scans the `MethodDebugInformation` table from position 1
and parses every row whose `document` field equals the document index;
any `ParseMethod` failure aborts. -/
def methodLoop (pdb : PdbView) (doc_index : Nat) :
    Nat → List MethodDebugInformationRow → Option (List MethodInfo)
  | _, [] => some []
  | method_def, row :: rest =>
    if row.document ≠ doc_index then
      methodLoop pdb doc_index (method_def + 1) rest
    else
      match DocumentIndex.ParseMethod pdb row method_def doc_index with
      | none => none
      | some m =>
        match methodLoop pdb doc_index (method_def + 1) rest with
        | none => none
        | some ms => some (m :: ms)

/-- `DocumentIndex::Initialize` (`documentindex.cc`, lines 31-98).
`doc_index` is a C++ `int`; the comparison with
`document_table.size()` converts it to the unsigned `size_t`, modelled
by reduction modulo `2 ^ 64`.  A `none` result is `return false`. -/
def DocumentIndex.Initialize (pdb : PdbView) (doc_index : Int) :
    Option DocumentIndexData :=
  if doc_index = 0 then
    none
  else if pdb.documentTable.length ≤
      (doc_index % (18446744073709551616 : Int)).toNat then
    none
  else
    let n := (doc_index % (18446744073709551616 : Int)).toNat
    let doc_row := pdb.documentTable.getD n default
    match pdb.getDocumentName doc_row.name with
    | none => none
    | some file_path =>
      let source_language := GetLanguageName (pdb.getHeapGuid doc_row.language)
      let hash_algorithm :=
        GetHashAlgorithmName (pdb.getHeapGuid doc_row.hash_algorithm)
      match pdb.getHeapBlobStream doc_row.hash with
      | none => none
      | some hash =>
        match methodLoop pdb n 1 (pdb.methodDebugInfoTable.drop 1) with
        | none => none
        | some methods =>
          some
            { file_path := file_path, source_language := source_language,
              hash_algorithm := hash_algorithm, hash := hash,
              methods := methods }

instance : Inhabited MethodInfo :=
  ⟨{ method_def := 0, first_line := 0, last_line := 0,
     sequence_points := [], local_scope := [] }⟩

/-- A document with one method (no sequence points) owning one
`LocalScope` row whose variable range is corrupt: `variable_list = 5`
while the `LocalVariable` table is empty, so the computed range has
`end < start`. -/
def pdbC1 : PdbView :=
  { documentTable :=
      [default, { name := 3, hash_algorithm := 0, hash := 4, language := 0 }],
    methodDebugInfoTable := [default, { document := 1, sequence_points := 7 }],
    localScopeTable :=
      [default,
       { method_def := 1, variable_list := 5, constant_list := 0,
         start_offset := 0, length := 10 }],
    localVariableTable := [],
    localConstantTable := [],
    getDocumentName := fun n => if n = 3 then some "file.cs" else none,
    getHeapGuid := fun _ => "",
    getHeapBlobStream := fun n => if n = 4 then some [] else none,
    getHeapString := fun _ => "",
    parseSeqPointInfo := fun d b =>
      if d = 1 ∧ b = 7 then some ⟨[]⟩ else none }

/-- The corrupt `LocalScope` row of `pdbC1`. -/
def scopeRowC1 : LocalScopeRow :=
  { method_def := 1, variable_list := 5, constant_list := 0,
    start_offset := 0, length := 10 }

/-- A well-formed scope table for exercising a successful `ParseScope`:
scope 1 owns variable rows `[1, 2)` and constant rows `[1, 2)`, scope 2
owns the rest. -/
def scopeTableC4 : List LocalScopeRow :=
  [default,
   { method_def := 1, variable_list := 1, constant_list := 1,
     start_offset := 0, length := 8 },
   { method_def := 2, variable_list := 2, constant_list := 2,
     start_offset := 8, length := 4 }]

/-- Variable table matching `scopeTableC4`. -/
def varTableC4 : List LocalVariableRow :=
  [default,
   { attributes := 0, index := 0, name := 11 },
   { attributes := 1, index := 1, name := 12 }]

/-- Constant table matching `scopeTableC4`. -/
def constTableC4 : List LocalConstantRow :=
  [default, { name := 21, signature := 0 }, { name := 22, signature := 0 }]

/-- The scope row at position 1 of `scopeTableC4`. -/
def scopeRowC4 : LocalScopeRow :=
  { method_def := 1, variable_list := 1, constant_list := 1,
    start_offset := 0, length := 8 }

/-- The scope produced by the successful `ParseScope` run on
`scopeTableC4` at position 1. -/
def scopeC4 : Scope :=
  (DocumentIndex.ParseScope pdbC1 scopeRowC4 scopeTableC4 varTableC4
    constTableC4 1 1).snd

/-- Sequence-point records of the worked example of section 8 of the
spec: a visible point at line 10, a hidden marker, a visible point at
line 12. -/
def recordsC5 : List SequencePointRecord :=
  [{ il_delta := 0, start_line := 10, end_line := 10, start_col := 1,
     end_col := 5, document := 0 },
   { il_delta := 5, start_line := 0, end_line := 0, start_col := 0,
     end_col := 0, document := 0 },
   { il_delta := 20, start_line := 12, end_line := 12, start_col := 1,
     end_col := 4, document := 0 }]

/-- A document whose single method carries `recordsC5`. -/
def pdbC5 : PdbView :=
  { documentTable :=
      [default, { name := 3, hash_algorithm := 0, hash := 4, language := 0 }],
    methodDebugInfoTable := [default, { document := 1, sequence_points := 9 }],
    localScopeTable := [default],
    localVariableTable := [],
    localConstantTable := [],
    getDocumentName := fun n => if n = 3 then some "b.cs" else none,
    getHeapGuid := fun _ => "",
    getHeapBlobStream := fun n => if n = 4 then some [] else none,
    getHeapString := fun _ => "",
    parseSeqPointInfo := fun d b =>
      if d = 1 ∧ b = 9 then some ⟨recordsC5⟩ else none }

/-- The debug-information row of the method of `pdbC5`. -/
def rowC5 : MethodDebugInformationRow := { document := 1, sequence_points := 9 }

/-- The method parsed from `pdbC5`. -/
def methodC5 : MethodInfo :=
  (DocumentIndex.ParseMethod pdbC5 rowC5 1 1).getD default

/-- Sequence-point records whose accumulated `uint32_t` IL offset
wraps: two deltas of `2 ^ 31`. -/
def recordsC6 : List SequencePointRecord :=
  [{ il_delta := 2147483648, start_line := 1, end_line := 1, start_col := 1,
     end_col := 2, document := 0 },
   { il_delta := 2147483648, start_line := 2, end_line := 2, start_col := 1,
     end_col := 2, document := 0 }]

/-- A document whose single method carries `recordsC6`. -/
def pdbC6 : PdbView :=
  { pdbC5 with
    parseSeqPointInfo := fun d b =>
      if d = 1 ∧ b = 9 then some ⟨recordsC6⟩ else none }

/-- The method parsed from `pdbC6`. -/
def methodC6 : MethodInfo :=
  (DocumentIndex.ParseMethod pdbC6 rowC5 1 1).getD default

/-- Valid-table bitmask with only the `Module` table (kind 0) present. -/
def maskC3 : List Bool := true :: List.replicate 55 false

/-- Row counts derived from `maskC3` with 5 `Module` rows. -/
def rowsC3 : List Nat := buildRowsPerTable maskC3 [5]

/-- The reader state of `streamEmptyParts` at entry of the part-index
loop: the declared length 1 and the separator byte have been consumed,
leaving an empty part-index area. -/
def streamAtLoopC10 : CustomBinaryStream :=
  { len := 9, byteAt := fun i => [0, 0, 0, 0, 0, 0, 0, 1, 47].getD i 0,
    pos := 9, endPos := 9 }

/-- C1: the claim states that an out-of-order or out-of-range
variable/constant row range of a local scope aborts the whole document
parse (`DocumentIndex::Initialize` returns false).  On `pdbC1` the
scope at position 1 has `variable_list = 5` with an empty
`LocalVariable` table, so its computed range has `end < start` and
`ParseScope` fails — yet `ParseMethod` (`documentindex.cc`, lines
163-171) merely logs the failure, keeps the partially parsed scope and
continues, and `Initialize` succeeds. -/
theorem c1_scope_corruption_does_not_abort :
    (DocumentIndex.ParseScope pdbC1 scopeRowC1 pdbC1.localScopeTable
      pdbC1.localVariableTable pdbC1.localConstantTable 1 1).fst = false ∧
    scopeRowC1.variable_list = 5 ∧
    pdbC1.localVariableTable.length = 0 ∧
    (DocumentIndex.Initialize pdbC1 1).isSome = true := by
  decide

/-- C2: the claim states that `GetDocumentName` restores the virtual
stream-length boundary before returning false on every failure path.
On `streamTight` the re-`SetStreamLength` after the first component
(`portablepdbfile.cc`, lines 175-178) fails and the function returns
false with the boundary still set (`endPos = 12` while the buffer end
is 13). -/
theorem c2_dangling_length_boundary :
    (getDocumentName 0 7 streamTight).fst = none ∧
    (getDocumentName 0 7 streamTight).snd.endPos = 12 ∧
    (getDocumentName 0 7 streamTight).snd.len = 13 ∧
    (getDocumentName 0 7 streamTight).snd.endPos ≠
      (getDocumentName 0 7 streamTight).snd.len := by
  decide

/-- C3: the claim states that the table-count check fails whenever any
non-PDB table kind has a nonzero row count.  The check of
`portablepdbfile.cc`, lines 322-328, iterates up to the row count of
the `Document` table instead of the `Document` table kind: with only
the `Module` table (kind 0, not a PDB kind) populated with 5 rows and
no `Document` rows, the check passes. -/
theorem c3_table_check_passes_with_nonpdb_rows :
    pdbOnlyTablesCheck rowsC3 = true ∧
    rowsC3.getD 0 0 = 5 ∧
    (0 : Nat) ∉ pdbTableKinds := by
  decide

/-- C7: the claim states that the document-name blob with component
indices for `"a"`, `"b"`, `"c"` and separator `'/'` decodes to
`"a/b/c"` (bytes `[97, 47, 98, 47, 99]`).  On `streamPadded` the
resumed `SetStreamLength(index_stream_length)` of
`portablepdbfile.cc`, line 176, re-arms the boundary at the resumed
cursor rather than at the blob end, so the loop runs past the blob and
the result is `"a/b/c////"`. -/
theorem c7_document_name_mangled :
    (getDocumentName 0 7 streamPadded).fst =
      some [97, 47, 98, 47, 99, 47, 47, 47, 47] ∧
    (getDocumentName 0 7 streamPadded).fst ≠ some [97, 47, 98, 47, 99] := by
  decide

/-- C8: the claim states that every 1-based heap accessor rejects
index 0.  `GetDocumentName` does; `GetHeapGuid`
(`portablepdbfile.cc`, lines 191-212) has no such check: with the GUID
heap at offset 16, index 0 wraps through the `uint32_t` computation
`(0 - 1) * 16` to absolute offset 0 and the call succeeds, returning
the 16 bytes preceding the heap.  Index 2 reads heap bytes
`[16, 32)` as the claim describes. -/
theorem c8_heap_guid_index_zero_not_rejected :
    (getDocumentName 16 0 streamGuid).fst = none ∧
    (getHeapGuid 16 0 streamGuid).fst =
      some [0, 1, 2, 3, 4, 5, 6, 7, 8, 9, 10, 11, 12, 13, 14, 15] ∧
    (getHeapGuid 16 2 streamGuid).fst =
      some [32, 33, 34, 35, 36, 37, 38, 39, 40, 41, 42, 43, 44, 45, 46, 47] := by
  decide

/-- C10: the claim states that the accumulated result string is
non-empty whenever the trailing-separator-removal step is reached,
including for a blob whose part-index list is empty.  On
`streamEmptyParts` (declared blob length 1: separator only) all the
earlier reads succeed, the part-index loop runs zero iterations, and
the removal step is reached with the empty string — the non-empty
precondition of `result.pop_back()` (line 184) is violated. -/
theorem c10_empty_result_counterexample :
    (getDocumentNameCore 0 7 streamEmptyParts).fst = some [] := by
  decide

/-- C9: `DocumentIndex::Initialize` (`documentindex.cc`, lines 31-44)
rejects document index 0 and any index at or beyond the `Document`
table size before reading any document content (the rejection depends
on nothing but the table length), and only indices in
`[1, document_table.size())` proceed.  `doc_index` is a C++ 32-bit
`int` (hence the range hypotheses); the size comparison converts it to
the unsigned `size_t`, and the table, decoded from 32-bit row counts,
has fewer than `2 ^ 32` rows. -/
theorem c9_initialize_rejects_bad_index (pdb : PdbView) (d : Int) :
    (d = 0 → DocumentIndex.Initialize pdb d = none) ∧
    (0 ≤ d → d < 2147483648 → (pdb.documentTable.length : Int) ≤ d →
      DocumentIndex.Initialize pdb d = none) ∧
    (-2147483648 ≤ d → d < 2147483648 → pdb.documentTable.length < 4294967296 →
      DocumentIndex.Initialize pdb d ≠ none →
      1 ≤ d ∧ d.toNat < pdb.documentTable.length) := by
  refine ⟨?_, ?_, ?_⟩
  · intro h
    simp [DocumentIndex.Initialize, h]
  · intro h0 hlt hle
    by_cases hd : d = 0
    · simp [DocumentIndex.Initialize, hd]
    · have hn : pdb.documentTable.length ≤
          (d % (18446744073709551616 : Int)).toNat := by
        omega
      simp [DocumentIndex.Initialize, hd, hn]
  · intro hlo hhi hlen hne
    by_cases hd : d = 0
    · exact absurd (by simp [DocumentIndex.Initialize, hd]) hne
    · by_cases hn : pdb.documentTable.length ≤
          (d % (18446744073709551616 : Int)).toNat
      · exact absurd (by simp [DocumentIndex.Initialize, hd, hn]) hne
      · constructor
        · omega
        · omega

/-- Witness for C9 at the concrete `pdbC1` (document table of
length 2): index 0 and index 5 are both rejected. -/
theorem c9_initialize_rejects_bad_index_witness :
    DocumentIndex.Initialize pdbC1 0 = none ∧
    DocumentIndex.Initialize pdbC1 5 = none :=
  ⟨(c9_initialize_rejects_bad_index pdbC1 0).1 rfl,
   (c9_initialize_rejects_bad_index pdbC1 5).2.1 (by decide) (by decide)
     (by decide)⟩

/-- C4: for every successfully parsed scope at `LocalScope`-table
position `scope_index`, the owned variable-row range is
`[variable_list of the row, end)` with `end` the minimum of the
`LocalVariable` table size and the next row's `variable_list` when a
next row exists, else the table size, and `start ≤ end ≤ table size`;
identically for the constant-row range (`documentindex.cc`, lines
176-248). -/
theorem c4_scope_range_rule (pdb : PdbView) (row : LocalScopeRow)
    (scopeTable : List LocalScopeRow) (varTable : List LocalVariableRow)
    (constTable : List LocalConstantRow) (method_def scope_index : Nat)
    (sc : Scope)
    (hrow : scopeTable.getD scope_index default = row)
    (hp : DocumentIndex.ParseScope pdb row scopeTable varTable constTable
      method_def scope_index = (true, sc)) :
    sc.local_var_row_start_index = row.variable_list ∧
    sc.local_var_row_end_index =
      (if scope_index + 1 < scopeTable.length then
        min varTable.length
          ((scopeTable.getD (scope_index + 1) default).variable_list)
      else varTable.length) ∧
    sc.local_var_row_start_index ≤ sc.local_var_row_end_index ∧
    sc.local_var_row_end_index ≤ varTable.length ∧
    sc.local_const_row_start_index = row.constant_list ∧
    sc.local_const_row_end_index =
      (if scope_index + 1 < scopeTable.length then
        min constTable.length
          ((scopeTable.getD (scope_index + 1) default).constant_list)
      else constTable.length) ∧
    sc.local_const_row_start_index ≤ sc.local_const_row_end_index ∧
    sc.local_const_row_end_index ≤ constTable.length := by
  clear hrow
  simp only [DocumentIndex.ParseScope] at hp
  split_ifs at hp with h1 h2 h3 h4 <;>
    rw [Prod.mk.injEq] at hp <;>
    obtain ⟨hb, hsc⟩ := hp <;>
    first
      | exact absurd hb (by decide)
      | (subst hsc
         refine ⟨rfl, ?_, ?_, ?_, rfl, ?_, ?_, ?_⟩ <;> dsimp only <;>
           (try rw [if_pos h2]) <;> (try rw [if_neg h2]) <;> omega)

/-- Witness for C4: the successful parse of scope 1 of `scopeTableC4`
satisfies the range rule. -/
theorem c4_scope_range_rule_witness :
    scopeC4.local_var_row_start_index = scopeRowC4.variable_list ∧
    scopeC4.local_var_row_end_index =
      (if 1 + 1 < scopeTableC4.length then
        min varTableC4.length
          ((scopeTableC4.getD (1 + 1) default).variable_list)
      else varTableC4.length) ∧
    scopeC4.local_var_row_start_index ≤ scopeC4.local_var_row_end_index ∧
    scopeC4.local_var_row_end_index ≤ varTableC4.length ∧
    scopeC4.local_const_row_start_index = scopeRowC4.constant_list ∧
    scopeC4.local_const_row_end_index =
      (if 1 + 1 < scopeTableC4.length then
        min constTableC4.length
          ((scopeTableC4.getD (1 + 1) default).constant_list)
      else constTableC4.length) ∧
    scopeC4.local_const_row_start_index ≤ scopeC4.local_const_row_end_index ∧
    scopeC4.local_const_row_end_index ≤ constTableC4.length :=
  c4_scope_range_rule pdbC1 scopeRowC4 scopeTableC4 varTableC4 constTableC4
    1 1 scopeC4 rfl rfl

/-- Records that contribute to `first_line`/`last_line`: those emitted
with `is_hidden` false by the loop of `documentindex.cc`, lines
125-149. -/
def visRecords (rs : List SequencePointRecord) : List SequencePointRecord :=
  rs.filter (fun r => !(IsHidden r || IsDocumentChange r))

/-- The sequence points emitted by the loop of `documentindex.cc`,
lines 125-149, for a record list starting from accumulated IL offset
`il` (ignoring the document-change abort, which is handled by the loop
itself). -/
def emitPoints : Nat → List SequencePointRecord → List SequencePoint
  | _, [] => []
  | il, r :: rest =>
    { start_line := r.start_line, end_line := r.end_line,
      start_col := r.start_col, end_col := r.end_col,
      il_offset := (il + r.il_delta) % u32Mod,
      is_hidden := IsHidden r || IsDocumentChange r } ::
      emitPoints ((il + r.il_delta) % u32Mod) rest

/-- Every record emits exactly one sequence point. -/
theorem emitPoints_length (il : Nat) (rs : List SequencePointRecord) :
    (emitPoints il rs).length = rs.length := by
  induction rs generalizing il with
  | nil => rfl
  | cons r rest ih => simp [emitPoints, ih]

/-- Every emitted point carries the lines and hidden flag of some
record. -/
theorem emitPoints_mem (rs : List SequencePointRecord) :
    ∀ (il : Nat), ∀ p ∈ emitPoints il rs,
      ∃ r ∈ rs, p.start_line = r.start_line ∧ p.end_line = r.end_line ∧
        p.is_hidden = (IsHidden r || IsDocumentChange r) := by
  induction rs with
  | nil => intro il p hp; simp [emitPoints] at hp
  | cons r rest ih =>
    intro il p hp
    rcases List.mem_cons.1 hp with h | h
    · subst h
      exact ⟨r, List.mem_cons_self _ _, rfl, rfl, rfl⟩
    · obtain ⟨r', hr', h1, h2, h3⟩ := ih ((il + r.il_delta) % u32Mod) p h
      exact ⟨r', List.mem_cons_of_mem _ hr', h1, h2, h3⟩

/-- Every record is represented by an emitted point with its lines and
hidden flag. -/
theorem emitPoints_mem_of (rs : List SequencePointRecord) :
    ∀ r ∈ rs, ∀ (il : Nat),
      ∃ p ∈ emitPoints il rs, p.start_line = r.start_line ∧
        p.end_line = r.end_line ∧
        p.is_hidden = (IsHidden r || IsDocumentChange r) := by
  induction rs with
  | nil => intro r hr; simp at hr
  | cons x rest ih =>
    intro r hr il
    rcases List.mem_cons.1 hr with h | h
    · subst h
      exact ⟨_, List.mem_cons_self _ _, rfl, rfl, rfl⟩
    · obtain ⟨p, hp, h1, h2, h3⟩ := ih r h ((il + x.il_delta) % u32Mod)
      exact ⟨p, List.mem_cons_of_mem _ hp, h1, h2, h3⟩

/-- A running minimum never exceeds its initial value. -/
theorem foldlMin_le_init {α : Type} (g : α → Nat) (l : List α) (init : Nat) :
    List.foldl (fun a x => min (g x) a) init l ≤ init := by
  induction l generalizing init with
  | nil => exact Nat.le_refl _
  | cons x rest ih =>
    exact Nat.le_trans (ih (min (g x) init)) (Nat.min_le_right _ _)

/-- A running minimum is at most each folded value. -/
theorem foldlMin_le_mem {α : Type} (g : α → Nat) (l : List α) (init : Nat) :
    ∀ r ∈ l, List.foldl (fun a x => min (g x) a) init l ≤ g r := by
  induction l generalizing init with
  | nil => intro r hr; simp at hr
  | cons x rest ih =>
    intro r hr
    rcases List.mem_cons.1 hr with h | h
    · subst h
      exact Nat.le_trans (foldlMin_le_init g rest _) (Nat.min_le_left _ _)
    · exact ih (min (g x) init) r h

/-- A running minimum is its initial value or is attained by a list
element. -/
theorem foldlMin_cases {α : Type} (g : α → Nat) (l : List α) (init : Nat) :
    List.foldl (fun a x => min (g x) a) init l = init ∨
      ∃ r ∈ l, List.foldl (fun a x => min (g x) a) init l = g r := by
  induction l generalizing init with
  | nil => exact Or.inl rfl
  | cons x rest ih =>
    rcases ih (min (g x) init) with h | ⟨r, hr, hrr⟩
    · rcases Nat.le_total (g x) init with hle | hle
      · exact Or.inr ⟨x, List.mem_cons_self _ _, by
          rw [List.foldl_cons] at *
          rw [h, Nat.min_eq_left hle]⟩
      · exact Or.inl (by rw [List.foldl_cons, h, Nat.min_eq_right hle])
    · exact Or.inr ⟨r, List.mem_cons_of_mem _ hr, by rw [List.foldl_cons, hrr]⟩

/-- A running maximum is at least its initial value. -/
theorem foldlMax_init_le {α : Type} (g : α → Nat) (l : List α) (init : Nat) :
    init ≤ List.foldl (fun a x => max (g x) a) init l := by
  induction l generalizing init with
  | nil => exact Nat.le_refl _
  | cons x rest ih =>
    exact Nat.le_trans (Nat.le_max_right _ _) (ih (max (g x) init))

/-- A running maximum is at least each folded value. -/
theorem foldlMax_mem_le {α : Type} (g : α → Nat) (l : List α) (init : Nat) :
    ∀ r ∈ l, g r ≤ List.foldl (fun a x => max (g x) a) init l := by
  induction l generalizing init with
  | nil => intro r hr; simp at hr
  | cons x rest ih =>
    intro r hr
    rcases List.mem_cons.1 hr with h | h
    · subst h
      exact Nat.le_trans (Nat.le_max_left _ _) (foldlMax_init_le g rest _)
    · exact ih (max (g x) init) r h

/-- A running maximum is its initial value or is attained by a list
element. -/
theorem foldlMax_cases {α : Type} (g : α → Nat) (l : List α) (init : Nat) :
    List.foldl (fun a x => max (g x) a) init l = init ∨
      ∃ r ∈ l, List.foldl (fun a x => max (g x) a) init l = g r := by
  induction l generalizing init with
  | nil => exact Or.inl rfl
  | cons x rest ih =>
    rcases ih (max (g x) init) with h | ⟨r, hr, hrr⟩
    · rcases Nat.le_total (g x) init with hle | hle
      · exact Or.inl (by rw [List.foldl_cons, h, Nat.max_eq_right hle])
      · exact Or.inr ⟨x, List.mem_cons_self _ _, by
          rw [List.foldl_cons, h, Nat.max_eq_left hle]⟩
    · exact Or.inr ⟨r, List.mem_cons_of_mem _ hr, by rw [List.foldl_cons, hrr]⟩

/-- Characterisation of the sequence-point loop: on success it emits
one point per record and computes `first_line`/`last_line` as running
minimum/maximum over the records that are not hidden. -/
theorem seqPointLoop_eq (rs : List SequencePointRecord) :
    ∀ (il first last : Nat) (acc pts : List SequencePoint) (f l : Nat),
      seqPointLoop rs il first last acc = some (pts, f, l) →
      pts = acc.reverse ++ emitPoints il rs ∧
      f = List.foldl (fun a r => min r.start_line a) first (visRecords rs) ∧
      l = List.foldl (fun a r => max r.end_line a) last (visRecords rs) := by
  induction rs with
  | nil =>
    intro il first last acc pts f l h
    simp only [seqPointLoop, Option.some.injEq, Prod.mk.injEq] at h
    obtain ⟨h1, h2, h3⟩ := h
    subst h1; subst h2; subst h3
    simp [emitPoints, visRecords]
  | cons r rest ih =>
    intro il first last acc pts f l h
    cases hdc : IsDocumentChange r with
    | true => simp [seqPointLoop, hdc] at h
    | false =>
      cases hh : IsHidden r with
      | true =>
        simp only [seqPointLoop, hdc, hh, Bool.or_false, if_true, if_false,
          Bool.false_eq_true, ite_true, ite_false] at h
        obtain ⟨h1, h2, h3⟩ := ih _ _ _ _ _ _ _ h
        refine ⟨?_, ?_, ?_⟩
        · rw [h1]; simp [emitPoints, hdc, hh]
        · rw [h2]; simp [visRecords, hh, hdc]
        · rw [h3]; simp [visRecords, hh, hdc]
      | false =>
        simp only [seqPointLoop, hdc, hh, Bool.or_false, if_true, if_false,
          Bool.false_eq_true, ite_true, ite_false] at h
        obtain ⟨h1, h2, h3⟩ := ih _ _ _ _ _ _ _ h
        refine ⟨?_, ?_, ?_⟩
        · rw [h1]; simp [emitPoints, hdc, hh]
        · rw [h2]; simp [visRecords, hh, hdc, List.filter_cons]
        · rw [h3]; simp [visRecords, hh, hdc, List.filter_cons]

/-- C5: for every successfully parsed method, every sequence point is
retained (one per record), `first_line` is a lower bound of the start
lines and `last_line` an upper bound of the end lines of the points
with `is_hidden` false, both bounds are attained when a visible point
exists (start lines being `uint32` values), and a method whose points
are all hidden — or absent — keeps the sentinels
`first_line = 2 ^ 32 - 1`, `last_line = 0` (`documentindex.cc`, lines
100-149). -/
theorem c5_first_last_lines (pdb : PdbView) (row : MethodDebugInformationRow)
    (method_def doc_index : Nat) (m : MethodInfo)
    (info : MethodSequencePointInformation)
    (hinfo : pdb.parseSeqPointInfo doc_index row.sequence_points = some info)
    (hm : DocumentIndex.ParseMethod pdb row method_def doc_index = some m) :
    m.sequence_points.length = info.records.length ∧
    (∀ p ∈ m.sequence_points, p.is_hidden = false →
      m.first_line ≤ p.start_line ∧ p.end_line ≤ m.last_line) ∧
    ((∀ p ∈ m.sequence_points, p.is_hidden = true) →
      m.first_line = u32Mod - 1 ∧ m.last_line = 0) ∧
    ((∀ p ∈ m.sequence_points, p.start_line < u32Mod) →
      (∃ p ∈ m.sequence_points, p.is_hidden = false) →
      ((∃ p ∈ m.sequence_points, p.is_hidden = false ∧
          p.start_line = m.first_line) ∧
       (∃ p ∈ m.sequence_points, p.is_hidden = false ∧
          p.end_line = m.last_line))) := by
  simp only [DocumentIndex.ParseMethod, hinfo] at hm
  cases hsl : seqPointLoop info.records 0 (u32Mod - 1) 0 [] with
  | none => rw [hsl] at hm; exact absurd hm (by simp)
  | some trip =>
    obtain ⟨pts, f, l⟩ := trip
    rw [hsl] at hm
    simp only [Option.some.injEq] at hm
    subst hm
    obtain ⟨h1, h2, h3⟩ := seqPointLoop_eq _ _ _ _ _ _ _ _ hsl
    simp only [List.reverse_nil, List.nil_append] at h1
    dsimp only
    refine ⟨?_, ?_, ?_, ?_⟩
    · rw [h1, emitPoints_length]
    · intro p hp hph
      rw [h1] at hp
      obtain ⟨r, hr, e1, e2, e3⟩ := emitPoints_mem _ _ p hp
      have hflag : (IsHidden r || IsDocumentChange r) = false := by
        rw [← e3, hph]
      have hvis : r ∈ visRecords info.records :=
        List.mem_filter.2 ⟨hr, by rw [hflag]; rfl⟩
      constructor
      · rw [h2, e1]
        exact foldlMin_le_mem (fun r => r.start_line) _ _ r hvis
      · rw [h3, e2]
        exact foldlMax_mem_le (fun r => r.end_line) _ _ r hvis
    · intro hall
      have hnil : visRecords info.records = [] := by
        rw [visRecords, List.filter_eq_nil_iff]
        intro r hr
        obtain ⟨p, hp, e1, e2, e3⟩ := emitPoints_mem_of _ r hr 0
        have := hall p (by rw [h1]; exact hp)
        rw [e3] at this
        simp [this]
      rw [h2, h3, hnil]
      exact ⟨rfl, rfl⟩
    · intro hbound hex
      obtain ⟨p0, hp0, hp0h⟩ := hex
      rw [h1] at hp0
      obtain ⟨r0, hr0, f1, f2, f3⟩ := emitPoints_mem _ _ p0 hp0
      have hflag0 : (IsHidden r0 || IsDocumentChange r0) = false := by
        rw [← f3, hp0h]
      have hvis0 : r0 ∈ visRecords info.records :=
        List.mem_filter.2 ⟨hr0, by rw [hflag0]; rfl⟩
      constructor
      · rcases foldlMin_cases (fun r => r.start_line) (visRecords info.records)
            (u32Mod - 1) with hc | ⟨r1, hr1, hc⟩
        · refine ⟨p0, by rw [h1]; exact hp0, hp0h, ?_⟩
          have hle : f ≤ r0.start_line :=
            h2 ▸ foldlMin_le_mem (fun r => r.start_line) _ _ r0 hvis0
          have hb : p0.start_line < u32Mod := hbound p0 (by rw [h1]; exact hp0)
          rw [f1] at hb
          rw [h2, hc] at *
          rw [f1]
          omega
        · have hr1' : r1 ∈ info.records := List.mem_of_mem_filter hr1
          have hflag1 : (IsHidden r1 || IsDocumentChange r1) = false := by
            have := List.of_mem_filter hr1
            simpa using this
          obtain ⟨p1, hp1, g1, g2, g3⟩ := emitPoints_mem_of _ r1 hr1' 0
          refine ⟨p1, by rw [h1]; exact hp1, by rw [g3, hflag1], ?_⟩
          rw [g1, h2, hc]
      · rcases foldlMax_cases (fun r => r.end_line) (visRecords info.records)
            0 with hc | ⟨r1, hr1, hc⟩
        · refine ⟨p0, by rw [h1]; exact hp0, hp0h, ?_⟩
          have hle : r0.end_line ≤ l :=
            h3 ▸ foldlMax_mem_le (fun r => r.end_line) _ _ r0 hvis0
          rw [h3, hc] at *
          rw [f2]
          omega
        · have hr1' : r1 ∈ info.records := List.mem_of_mem_filter hr1
          have hflag1 : (IsHidden r1 || IsDocumentChange r1) = false := by
            have := List.of_mem_filter hr1
            simpa using this
          obtain ⟨p1, hp1, g1, g2, g3⟩ := emitPoints_mem_of _ r1 hr1' 0
          refine ⟨p1, by rw [h1]; exact hp1, by rw [g3, hflag1], ?_⟩
          rw [g2, h3, hc]

/-- The `k`-th emitted IL offset is the delta prefix sum modulo
`2 ^ 32`. -/
theorem emitPoints_il_offset (rs : List SequencePointRecord) :
    ∀ (il k : Nat), k < rs.length →
      ((emitPoints il rs).getD k default).il_offset =
        (il + ((rs.take (k + 1)).map (fun r => r.il_delta)).sum) % u32Mod := by
  induction rs with
  | nil => intro il k hk; simp at hk
  | cons r rest ih =>
    intro il k hk
    cases k with
    | zero => simp [emitPoints]
    | succ k =>
      have hk' : k < rest.length := by simpa using hk
      simp only [emitPoints, List.getD_cons_succ]
      rw [ih ((il + r.il_delta) % u32Mod) k hk']
      simp only [List.take_succ_cons, List.map_cons, List.sum_cons]
      rw [Nat.mod_add_mod, Nat.add_assoc]

/-- Prefix sums grow with the prefix length. -/
theorem sumTake_le_succ {α : Type} (g : α → Nat) (l : List α) :
    ∀ n, ((l.take n).map g).sum ≤ ((l.take (n + 1)).map g).sum := by
  induction l with
  | nil => intro n; simp
  | cons x rest ih =>
    intro n
    cases n with
    | zero => simp
    | succ n =>
      simp only [List.take_succ_cons, List.map_cons, List.sum_cons]
      exact Nat.add_le_add_left (ih n) _

/-- A prefix sum is at most the total sum. -/
theorem sumTake_le {α : Type} (g : α → Nat) (l : List α) :
    ∀ n, ((l.take n).map g).sum ≤ (l.map g).sum := by
  induction l with
  | nil => intro n; simp
  | cons x rest ih =>
    intro n
    cases n with
    | zero => simp
    | succ n =>
      simp only [List.take_succ_cons, List.map_cons, List.sum_cons]
      exact Nat.add_le_add_left (ih n) _

/-- C6 (amended): for every successfully parsed method, the `k`-th
sequence point's IL offset equals the sum of the `il_delta` values of
records 1..k+1 reduced modulo `2 ^ 32` (the accumulator is a
`uint32_t`), and the offsets are non-decreasing in emission order
provided the total delta sum stays below `2 ^ 32`
(`documentindex.cc`, lines 122-149).  As stated — with a mathematical
sum and unconditional monotonicity — the claim fails on wrap-around;
see the counterexample. -/
theorem c6_il_offsets (pdb : PdbView) (row : MethodDebugInformationRow)
    (method_def doc_index : Nat) (m : MethodInfo)
    (info : MethodSequencePointInformation)
    (hinfo : pdb.parseSeqPointInfo doc_index row.sequence_points = some info)
    (hm : DocumentIndex.ParseMethod pdb row method_def doc_index = some m) :
    (∀ k, k < info.records.length →
      (m.sequence_points.getD k default).il_offset =
        (((info.records.take (k + 1)).map (fun r => r.il_delta)).sum) %
          u32Mod) ∧
    (((info.records.map (fun r => r.il_delta)).sum < u32Mod →
      ∀ k, k + 1 < info.records.length →
        (m.sequence_points.getD k default).il_offset ≤
          (m.sequence_points.getD (k + 1) default).il_offset)) := by
  simp only [DocumentIndex.ParseMethod, hinfo] at hm
  cases hsl : seqPointLoop info.records 0 (u32Mod - 1) 0 [] with
  | none => rw [hsl] at hm; exact absurd hm (by simp)
  | some trip =>
    obtain ⟨pts, f, l⟩ := trip
    rw [hsl] at hm
    simp only [Option.some.injEq] at hm
    subst hm
    obtain ⟨h1, -, -⟩ := seqPointLoop_eq _ _ _ _ _ _ _ _ hsl
    simp only [List.reverse_nil, List.nil_append] at h1
    dsimp only
    have hoff : ∀ k, k < info.records.length →
        (pts.getD k default).il_offset =
          (((info.records.take (k + 1)).map (fun r => r.il_delta)).sum) %
            u32Mod := by
      intro k hk
      rw [h1, emitPoints_il_offset _ _ k hk, Nat.zero_add]
    refine ⟨hoff, ?_⟩
    intro htot k hk1
    have hk : k < info.records.length := Nat.lt_of_succ_lt hk1
    rw [hoff k hk, hoff (k + 1) hk1]
    have b1 : (((info.records.take (k + 1)).map (fun r => r.il_delta)).sum) <
        u32Mod :=
      Nat.lt_of_le_of_lt (sumTake_le _ _ _) htot
    have b2 : (((info.records.take (k + 2)).map (fun r => r.il_delta)).sum) <
        u32Mod :=
      Nat.lt_of_le_of_lt (sumTake_le _ _ _) htot
    rw [Nat.mod_eq_of_lt b1, Nat.mod_eq_of_lt b2]
    exact sumTake_le_succ _ _ _

deriving instance DecidableEq for SequencePoint

/-- First sequence point of `methodC5` (visible, line 10). -/
def pointC5a : SequencePoint := methodC5.sequence_points.getD 0 default

/-- Third sequence point of `methodC5` (visible, line 12). -/
def pointC5c : SequencePoint := methodC5.sequence_points.getD 2 default

/-- Witness for C5: on the worked example of section 8 of the spec,
`first_line` is at most the first visible point's start line and the
third point's end line is at most `last_line`. -/
theorem c5_first_last_lines_witness :
    methodC5.first_line ≤ pointC5a.start_line ∧
    pointC5c.end_line ≤ methodC5.last_line := by
  have h := c5_first_last_lines pdbC5 rowC5 1 1 methodC5 ⟨recordsC5⟩ rfl rfl
  exact ⟨(h.2.1 pointC5a (by decide) (by decide)).1,
         (h.2.1 pointC5c (by decide) (by decide)).2⟩

/-- Witness for C6 (amended): on `recordsC5` (deltas 0, 5, 20; total
25, no wrap) the third point's IL offset is the prefix sum modulo
`2 ^ 32` and the offsets are non-decreasing. -/
theorem c6_il_offsets_witness :
    (methodC5.sequence_points.getD 2 default).il_offset =
      (((recordsC5.take 3).map (fun r => r.il_delta)).sum) % u32Mod ∧
    (methodC5.sequence_points.getD 0 default).il_offset ≤
      (methodC5.sequence_points.getD 1 default).il_offset := by
  have h := c6_il_offsets pdbC5 rowC5 1 1 methodC5 ⟨recordsC5⟩ rfl rfl
  exact ⟨h.1 2 (by decide), h.2 (by decide) 0 (by decide)⟩

/-- Counterexample for C6 as stated: with two deltas of `2 ^ 31`
(`recordsC6`) the parse succeeds, but the second point's `uint32_t`
IL offset is 0, not the mathematical delta sum `2 ^ 32`, and the
offsets [2147483648, 0] are decreasing although all deltas are
non-negative. -/
theorem c6_wrap_counterexample :
    (DocumentIndex.ParseMethod pdbC6 rowC5 1 1).isSome = true ∧
    methodC6.sequence_points.map (fun p => p.il_offset) = [2147483648, 0] ∧
    ((recordsC6.take 2).map (fun r => r.il_delta)).sum = 4294967296 ∧
    ¬ ((methodC6.sequence_points.getD 0 default).il_offset ≤
        (methodC6.sequence_points.getD 1 default).il_offset) := by
  decide

/-- The part-index loop only ever appends to the accumulated result:
a successful run from accumulator `acc` returns `acc ++ t` for some
`t`. -/
theorem getDocumentNameLoop_acc_prefix (fuel : Nat) :
    ∀ (heapOff idxLen sep : Nat) (acc : List Nat) (s : CustomBinaryStream)
      (r : List Nat) (s' : CustomBinaryStream),
      getDocumentNameLoop fuel heapOff idxLen sep acc s = (some r, s') →
      ∃ t, r = acc ++ t := by
  induction fuel with
  | zero =>
    intro heapOff idxLen sep acc s r s' h
    simp [getDocumentNameLoop] at h
  | succ fuel ih =>
    intro heapOff idxLen sep acc s r s' h
    simp only [getDocumentNameLoop] at h
    repeat' split at h
    all_goals
      first
        | (obtain ⟨t, ht⟩ := ih _ _ _ _ _ _ _ h
           subst ht
           simp only [List.append_assoc]
           exact ⟨_, rfl⟩)
        | (simp at h; done)
        | (rw [Prod.mk.injEq] at h
           obtain ⟨h1, -⟩ := h
           injection h1 with h3
           exact ⟨[], h3.symm.trans (List.append_nil acc).symm⟩)

/-- A successful run of the part-index loop that executes at least one
iteration (`HasNext` true at entry) returns a non-empty byte string:
every iteration appends at least the separator byte. -/
theorem getDocumentNameLoop_ne_nil (fuel : Nat) (heapOff idxLen sep : Nat)
    (acc : List Nat) (s : CustomBinaryStream) (r : List Nat)
    (s' : CustomBinaryStream) (hn : s.hasNext = true)
    (h : getDocumentNameLoop fuel heapOff idxLen sep acc s = (some r, s')) :
    r ≠ [] := by
  cases fuel with
  | zero => simp [getDocumentNameLoop] at h
  | succ fuel =>
    simp only [getDocumentNameLoop] at h
    repeat' split at h
    all_goals
      first
        | (obtain ⟨t, ht⟩ :=
             getDocumentNameLoop_acc_prefix fuel heapOff idxLen sep _ _ r s' h
           subst ht
           simp)
        | simp_all

/-- C10 (amended): the byte string accumulated by the part-index loop
of `GetDocumentName` (`portablepdbfile.cc`, lines 140-182), reaching
the trailing-separator removal of line 184, is non-empty exactly when
the loop executed at least one iteration — that is, when `HasNext`
held at loop entry.  For a blob whose part-index list is empty the
loop runs zero iterations and the removal step is reached with the
empty string (see the counterexample), so the claim's unconditional
non-emptiness fails. -/
theorem c10_result_nonempty_iff (fuel heapOff idxLen sep : Nat)
    (s : CustomBinaryStream) (r : List Nat) (s' : CustomBinaryStream)
    (h : getDocumentNameLoop fuel heapOff idxLen sep [] s = (some r, s')) :
    r = [] ↔ s.hasNext = false := by
  cases hn : s.hasNext with
  | false =>
    cases fuel with
    | zero => simp [getDocumentNameLoop] at h
    | succ fuel =>
      simp only [getDocumentNameLoop, hn, Bool.false_eq_true, if_false,
        Prod.mk.injEq] at h
      obtain ⟨h1, -⟩ := h
      injection h1 with h3
      simp [h3.symm]
  | true =>
    have hne := getDocumentNameLoop_ne_nil fuel heapOff idxLen sep [] s r s' hn h
    simp [hne]

/-- Witness for C10 (amended), at the loop-entry state of
`streamEmptyParts`: the loop completes with the empty result and
`HasNext` is false. -/
theorem c10_result_nonempty_iff_witness :
    (([] : List Nat) = [] ↔ streamAtLoopC10.hasNext = false) :=
  c10_result_nonempty_iff 10 0 1 47 streamAtLoopC10 [] streamAtLoopC10 rfl
